import Mathlib

/-!
# Verification of the in-memory key-value emulator and the auth routes

Shallow embedding of the repository's mock KV store (`MockKV` in
`app/lib/mocks/mockKV.ts`), the mock environment factory
(`app/lib/mocks/mockEnv.ts`), and the register/login route actions.

Modelling conventions:

* The module-level `memoryStore` (a JS `Map<string,string>`) is an explicit
  `Store` value threaded through every operation.  JS `Map` semantics are
  mirrored: `set` updates an existing key in place (keeping its position in
  iteration order) or appends, `delete` removes the entry, `keys()` iterates
  in insertion order, so `Store` is an association list.
* The host's `JSON.parse` (which throws on malformed input) is abstracted as
  an explicit parameter `parse : String → Option Json`; `none` models the
  thrown exception caught by the source's `try/catch`.  Theorems quantify
  over `parse`, so they hold in particular for the host parser.  A concrete
  executable `parseJsonSimple` is supplied for witnesses and agrees with the
  host parser on every concrete input used in them.
* `TextEncoder.encode` / `TextDecoder.decode` are modelled by executable
  UTF-8 `utf8Encode` / `utf8Decode` (the decoder uses the WHATWG
  replacement-character policy on invalid input).
* JS truthiness tests (`if (value)`, `if (existingUser)`, `if (!userData)`)
  are modelled exactly: the empty string, `null`, `false` and `0` are falsy.
-/

/-- The module-level `memoryStore : Map<string,string>` of mockKV.ts, as an
insertion-ordered association list with unique keys maintained by the
operations. -/
abbrev Store := List (String × String)

/-- The empty store (a freshly started process). -/
def Store.empty : Store := []

/-- JS `Map.prototype.get`: the value at a key, or `none` (`undefined`). -/
def Store.get : Store → String → Option String
  | [], _ => none
  | (k', v') :: rest, k => if k' = k then some v' else Store.get rest k

/-- JS `Map.prototype.set`: update an existing key in place (keeping its
position in the iteration order) or append a new entry. -/
def Store.set : Store → String → String → Store
  | [], k, v => [(k, v)]
  | (k', v') :: rest, k, v =>
    if k' = k then (k, v) :: rest else (k', v') :: Store.set rest k v

/-- JS `Map.prototype.delete`: remove the entry for a key (no effect when the
key is absent). -/
def Store.del : Store → String → Store
  | [], _ => []
  | (k', v') :: rest, k =>
    if k' = k then Store.del rest k else (k', v') :: Store.del rest k

/-- UTF-8 encoding of one Unicode scalar value (`TextEncoder` emits exactly
these byte sequences). -/
def utf8EncodeChar (c : Char) : List Nat :=
  let n := c.toNat
  if n < 0x80 then [n]
  else if n < 0x800 then [0xC0 + n / 64, 0x80 + n % 64]
  else if n < 0x10000 then [0xE0 + n / 4096, 0x80 + n / 64 % 64, 0x80 + n % 64]
  else [0xF0 + n / 262144, 0x80 + n / 4096 % 64, 0x80 + n / 64 % 64, 0x80 + n % 64]

/-- The `TextEncoder.encode` of a string: UTF-8 bytes of its scalar values. -/
def utf8Encode (s : String) : List Nat := (s.data.map utf8EncodeChar).flatten

/-- The U+FFFD replacement character emitted by `TextDecoder` on invalid
input. -/
def replacementChar : Char := Char.ofNat 0xFFFD

/-- Whether a byte is a UTF-8 continuation byte (`10xxxxxx`). -/
def isCont (b : Nat) : Bool := 0x80 ≤ b && b < 0xC0

/-- UTF-8 decoding with the WHATWG replacement policy, modelling
`TextDecoder.decode` with default (non-fatal) options. -/
def utf8DecodeChars : List Nat → List Char
  | [] => []
  | b :: rest =>
    if b < 0x80 then Char.ofNat b :: utf8DecodeChars rest
    else if b < 0xC2 then replacementChar :: utf8DecodeChars rest
    else if b < 0xE0 then
      match rest with
      | [] => [replacementChar]
      | b2 :: rest2 =>
        if isCont b2 then
          Char.ofNat ((b - 0xC0) * 64 + (b2 - 0x80)) :: utf8DecodeChars rest2
        else replacementChar :: utf8DecodeChars (b2 :: rest2)
    else if b < 0xF0 then
      match rest with
      | b2 :: b3 :: rest3 =>
        if isCont b2 && isCont b3 then
          let n := (b - 0xE0) * 4096 + (b2 - 0x80) * 64 + (b3 - 0x80)
          if n < 0x800 || (0xD800 ≤ n && n < 0xE000) then
            replacementChar :: utf8DecodeChars rest3
          else Char.ofNat n :: utf8DecodeChars rest3
        else replacementChar :: utf8DecodeChars (b2 :: b3 :: rest3)
      | _ => [replacementChar]
    else if b < 0xF5 then
      match rest with
      | b2 :: b3 :: b4 :: rest4 =>
        if isCont b2 && isCont b3 && isCont b4 then
          let n := (b - 0xF0) * 262144 + (b2 - 0x80) * 4096 + (b3 - 0x80) * 64 + (b4 - 0x80)
          if n < 0x10000 || 0x110000 ≤ n then replacementChar :: utf8DecodeChars rest4
          else Char.ofNat n :: utf8DecodeChars rest4
        else replacementChar :: utf8DecodeChars (b2 :: b3 :: b4 :: rest4)
      | _ => [replacementChar]
    else replacementChar :: utf8DecodeChars rest
termination_by bytes => bytes.length
decreasing_by all_goals simp_arith

/-- The `TextDecoder.decode` of a byte sequence. -/
def utf8Decode (bytes : List Nat) : String := String.mk (utf8DecodeChars bytes)

/-- Structured (JSON) values, as produced by the host's `JSON.parse`. -/
inductive Json where
  | null
  | bool (b : Bool)
  | num (n : Int)
  | str (s : String)
  | arr (elems : List Json)
  | obj (fields : List (String × Json))

/-- The `options` argument of `MockKV.get`: `undefined`, an object carrying a
`type` field (`options?.type`), or a plain string compared with `===`. -/
inductive GetOptions where
  | undef
  | objType (t : String)
  | str (s : String)
deriving DecidableEq

/-- The value of the JS expression `options?.type`. -/
def GetOptions.typeField : GetOptions → Option String
  | .objType t => some t
  | _ => none

/-- The value returned by `MockKV.get`: `null`, the raw stored text, a parsed
structured value, an `ArrayBuffer` of bytes, or a `ReadableStream` given as
its list of chunks (the source always enqueues exactly one). -/
inductive GetResult where
  | absent
  | text (s : String)
  | json (j : Json)
  | buffer (bytes : List Nat)
  | stream (chunks : List (List Nat))

/-- JS truthiness of a structured value (`null`, `false`, `0` and the empty
string are falsy; arrays and objects are truthy). -/
def Json.isTruthy : Json → Bool
  | .null => false
  | .bool b => b
  | .num n => n != 0
  | .str s => s != ""
  | .arr _ => true
  | .obj _ => true

/-- JS truthiness of a `get` result (`null` and the empty string are falsy;
parsed values by their own truthiness; buffers and streams are objects). -/
def GetResult.isTruthy : GetResult → Bool
  | .absent => false
  | .text s => s != ""
  | .json j => j.isTruthy
  | .buffer _ => true
  | .stream _ => true

/-- Property lookup on the field list of a structured object. -/
def lookupField : List (String × Json) → String → Option Json
  | [], _ => none
  | (k, v) :: rest, name => if k = name then some v else lookupField rest name

/-- JS property access on a structured value: a field of an object, otherwise
`undefined` (`none`). -/
def Json.getField : Json → String → Option Json
  | .obj fields, name => lookupField fields name
  | _, _ => none

/-- JS property access on a `get` result (the source only does this after a
truthiness guard, so `null` is never dereferenced). -/
def GetResult.field : GetResult → String → Option Json
  | .json j, name => j.getField name
  | _, _ => none

/-- The value argument of `MockKV.put`: text, an `ArrayBuffer`, or a
`ReadableStream` modelled by its reader — `reads i` is the outcome of the
i-th `reader.read()` call (`some chunk` or `none` for `done`). -/
inductive PutValue where
  | text (s : String)
  | buffer (bytes : List Nat)
  | stream (reads : Nat → Option (List Nat))

/-- The drain loop of `MockKV.put` (`while (true) { ...reader.read()... }`),
with explicit fuel standing for the number of loop iterations granted; `none`
means the loop did not reach `done` within the fuel (the source would still
be looping). -/
def readerDrain (reads : Nat → Option (List Nat)) : Nat → Nat → Option (List (List Nat))
  | 0, _ => none
  | Nat.succ fuel, i =>
    match reads i with
    | none => some []
    | some chunk =>
      match readerDrain reads fuel (i + 1) with
      | none => none
      | some chunks => some (chunk :: chunks)

/-- The concatenation of the drained chunks: the source allocates one
`Uint8Array` and copies each chunk at a running offset, which is a left fold
of append. -/
def concatChunks (chunks : List (List Nat)) : List Nat :=
  chunks.foldl (fun acc c => acc ++ c) []

/-- The allocation size computed by the source
(`chunks.reduce((acc, chunk) => acc + chunk.length, 0)`). -/
def totalLength (chunks : List (List Nat)) : Nat :=
  chunks.foldl (fun acc c => acc + c.length) 0

/-- The `MockKV` class.  Its only instance data is the constructor argument
`_id`; all state lives in the module-level store, which the embedding passes
explicitly to every method (so all instances share it, as in the source). -/
structure MockKV where
  _id : String := "boltKV"

/-- MockKV.get (mockKV.ts lines 14-53): `null` for an unknown key; otherwise
the JSON branch for `options?.type === 'json'` or `options === 'json'` (with
the parse failure caught, logged and converted to `null`), the byte-buffer
branch for `options === 'arrayBuffer'`, the single-chunk stream branch for
`options === 'stream'`, and the raw text in every remaining case.  Each
decode branch is additionally guarded by the truthiness of `value`, so an
empty stored string always falls through to the raw text. -/
def MockKV.get (_self : MockKV) (parse : String → Option Json) (st : Store)
    (key : String) (options : GetOptions) : GetResult :=
  match Store.get st key with
  | none => GetResult.absent
  | some value =>
    if options.typeField = some "json" ∧ value ≠ "" then
      match parse value with
      | some j => GetResult.json j
      | none => GetResult.absent
    else if options = GetOptions.str "json" ∧ value ≠ "" then
      match parse value with
      | some j => GetResult.json j
      | none => GetResult.absent
    else if options = GetOptions.str "arrayBuffer" ∧ value ≠ "" then
      GetResult.buffer (utf8Encode value)
    else if options = GetOptions.str "stream" ∧ value ≠ "" then
      GetResult.stream [utf8Encode value]
    else GetResult.text value

/-- MockKV.put (mockKV.ts lines 55-92): a stream is fully drained and its
chunks concatenated and decoded to text, a buffer is decoded to text, text
is stored as is; the result replaces any existing value at the key.  The
fuel bounds the drain loop's iterations and is irrelevant for text and
buffer values. -/
def MockKV.put (_self : MockKV) (fuel : Nat) (st : Store) (key : String)
    (value : PutValue) : Option Store :=
  match value with
  | .stream reads =>
    match readerDrain reads fuel 0 with
    | none => none
    | some chunks => some (Store.set st key (utf8Decode (concatChunks chunks)))
  | .buffer bytes => some (Store.set st key (utf8Decode bytes))
  | .text s => some (Store.set st key s)

/-- MockKV.delete (mockKV.ts lines 94-96). -/
def MockKV.delete (_self : MockKV) (st : Store) (key : String) : Store :=
  Store.del st key

/-- The `options` argument of `MockKV.list`. -/
structure ListOptions where
  keyPrefix : Option String := none
  limit : Option Nat := none

/-- A name-only key record (`.map((name) => ({ name }))`). -/
structure KeyName where
  name : String
deriving DecidableEq

/-- The return shape of `MockKV.list`. -/
structure ListResult where
  keys : List KeyName
  list_complete : Bool
  cacheStatus : Option String

/-- MockKV.list (mockKV.ts lines 99-109): all keys in insertion order,
filtered by `options?.prefix ? key.startsWith(options.prefix) : true` (note
the truthiness test: an empty prefix disables filtering), mapped to name-only
records, sliced to `options?.limit ?? 1000`, always `list_complete`. -/
def MockKV.list (_self : MockKV) (st : Store) (options : ListOptions) : ListResult :=
  let keys := ((st.map Prod.fst).filter (fun key =>
      match options.keyPrefix with
      | some p => if p != "" then key.startsWith p else true
      | none => true)).map (fun name => KeyName.mk name)
  { keys := keys.take (options.limit.getD 1000)
    list_complete := true
    cacheStatus := none }

/-- The return shape of `MockKV.getWithMetadata`. -/
structure MetaResult where
  value : GetResult
  metadata : Option Json
  cacheStatus : Option String

/-- MockKV.getWithMetadata (mockKV.ts lines 112-120): the same value
resolution as `get`, a `null` metadata field and a `null` cache status. -/
def MockKV.getWithMetadata (self : MockKV) (parse : String → Option Json)
    (st : Store) (key : String) (options : GetOptions) : MetaResult :=
  { value := MockKV.get self parse st key options
    metadata := none
    cacheStatus := none }

/-- The module-level default instance (`const mockKV = new MockKV()`). -/
def mockKV : MockKV := {}

/-- The mock environment shape (`Env` restricted to the two KV bindings that
`createMockEnv` populates). -/
structure Env where
  boltKV : MockKV
  AUTH_USERS : MockKV

/-- createMockEnv (app/lib/mocks/mockEnv.ts lines 8-13): both bindings are
the same module-level `mockKV` instance. -/
def createMockEnv : Env :=
  { boltKV := mockKV, AUTH_USERS := mockKV }

/-- The left-brace character, written by code point to keep it out of
string literals. -/
def lbrace : Char := Char.ofNat 123

/-- The right-brace character. -/
def rbrace : Char := Char.ofNat 125

/-- JSON insignificant whitespace, skipped between tokens. -/
def skipWs : List Char → List Char :=
  List.dropWhile (fun c => c = ' ' || c = '\n' || c = '\t' || c = '\r')

/-- Decoding of a single JSON string escape (after a backslash); `none`
rejects escapes the simple parser does not support, making it fail rather
than misparse. -/
def escDecode (c : Char) : Option Char :=
  if c = '"' then some '"'
  else if c = '\\' then some '\\'
  else if c = '/' then some '/'
  else if c = 'n' then some '\n'
  else if c = 't' then some '\t'
  else if c = 'r' then some '\r'
  else if c = 'b' then some (Char.ofNat 8)
  else if c = 'f' then some (Char.ofNat 12)
  else none

/-- Parsing of the body of a JSON string literal (after the opening quote),
returning the decoded characters and the input after the closing quote. -/
def parseStringChars : List Char → Option (List Char × List Char)
  | [] => none
  | '"' :: rest => some ([], rest)
  | '\\' :: e :: rest =>
    match escDecode e with
    | some c => (parseStringChars rest).map (fun p => (c :: p.1, p.2))
    | none => none
  | c :: rest =>
    if c = '\\' then none
    else (parseStringChars rest).map (fun p => (c :: p.1, p.2))

/-- The longest leading run of decimal digits. -/
def takeDigits : List Char → List Char × List Char
  | [] => ([], [])
  | c :: rest =>
    if c.isDigit then
      let p := takeDigits rest
      (c :: p.1, p.2)
    else ([], c :: rest)

/-- The natural number denoted by a digit run. -/
def digitsToNat (ds : List Char) : Nat :=
  ds.foldl (fun acc c => acc * 10 + (c.toNat - 48)) 0

/-- Parsing of a JSON integer literal; fractional or exponent forms are
rejected (`none`) rather than misparsed. -/
def parseNumber (cs : List Char) : Option (Json × List Char) :=
  let signAndRest : Bool × List Char :=
    match cs with
    | '-' :: rest => (true, rest)
    | _ => (false, cs)
  let ds := takeDigits signAndRest.2
  if ds.1.isEmpty then none
  else
    match ds.2 with
    | '.' :: _ => none
    | 'e' :: _ => none
    | 'E' :: _ => none
    | _ =>
      let n : Int := Int.ofNat (digitsToNat ds.1)
      some (Json.num (if signAndRest.1 then -n else n), ds.2)

mutual

/-- A small executable recursive-descent JSON parser (fuel-indexed), used to
instantiate the abstract `parse` parameter in witnesses.  It accepts a
fragment of JSON (integers only, the common string escapes) and rejects the
rest, and agrees with the host's `JSON.parse` on every input it accepts and
on every concrete input appearing in a theorem below. -/
def parseValue : Nat → List Char → Option (Json × List Char)
  | 0, _ => none
  | Nat.succ fuel, cs =>
    match skipWs cs with
    | [] => none
    | c :: rest =>
      if c = '"' then
        (parseStringChars rest).map (fun p => (Json.str (String.mk p.1), p.2))
      else if c = lbrace then
        let r1 := skipWs rest
        if r1.head? = some rbrace then some (Json.obj [], r1.tail)
        else
          match parseMembers fuel r1 with
          | some p => some (Json.obj p.1, p.2)
          | none => none
      else if c = '[' then
        let r1 := skipWs rest
        if r1.head? = some ']' then some (Json.arr [], r1.tail)
        else
          match parseElems fuel r1 with
          | some p => some (Json.arr p.1, p.2)
          | none => none
      else if c = 'n' then
        match rest with
        | 'u' :: 'l' :: 'l' :: r => some (Json.null, r)
        | _ => none
      else if c = 't' then
        match rest with
        | 'r' :: 'u' :: 'e' :: r => some (Json.bool true, r)
        | _ => none
      else if c = 'f' then
        match rest with
        | 'a' :: 'l' :: 's' :: 'e' :: r => some (Json.bool false, r)
        | _ => none
      else parseNumber (c :: rest)

/-- Parsing of a non-empty comma-separated member list of a JSON object,
up to and including the closing brace. -/
def parseMembers : Nat → List Char → Option (List (String × Json) × List Char)
  | 0, _ => none
  | Nat.succ fuel, cs =>
    match skipWs cs with
    | [] => none
    | c :: rest =>
      if c = '"' then
        match parseStringChars rest with
        | none => none
        | some kp =>
          match skipWs kp.2 with
          | ':' :: r2 =>
            match parseValue fuel r2 with
            | none => none
            | some vp =>
              match skipWs vp.2 with
              | ',' :: r4 =>
                (parseMembers fuel r4).map
                  (fun q => ((String.mk kp.1, vp.1) :: q.1, q.2))
              | r5 =>
                if r5.head? = some rbrace then
                  some ([(String.mk kp.1, vp.1)], r5.tail)
                else none
          | _ => none
      else none

/-- Parsing of a non-empty comma-separated element list of a JSON array,
up to and including the closing bracket. -/
def parseElems : Nat → List Char → Option (List Json × List Char)
  | 0, _ => none
  | Nat.succ fuel, cs =>
    match parseValue fuel cs with
    | none => none
    | some vp =>
      match skipWs vp.2 with
      | ',' :: r2 => (parseElems fuel r2).map (fun q => (vp.1 :: q.1, q.2))
      | r3 =>
        if r3.head? = some ']' then some ([vp.1], r3.tail)
        else none

end

/-- The entry point of the simple JSON parser: a whole input parses when a
value followed only by whitespace consumes it. -/
def parseJsonSimple (s : String) : Option Json :=
  match parseValue (s.length + 1) s.data with
  | some p => if (skipWs p.2).isEmpty then some p.1 else none
  | none => none

/-- JSON string escaping for the characters the simple parser understands
(quote, backslash and the common control characters); other characters are
emitted literally, as `JSON.stringify` does. -/
def escapeChar (c : Char) : String :=
  if c = '"' then "\\\""
  else if c = '\\' then "\\\\"
  else if c = '\n' then "\\n"
  else if c = '\t' then "\\t"
  else if c = '\r' then "\\r"
  else String.singleton c

/-- Escaping of a whole string body. -/
def escapeString (s : String) : String :=
  s.data.foldl (fun acc c => acc ++ escapeChar c) ""

mutual

/-- A small executable JSON serializer used to instantiate the abstract
`stringify` parameter in witnesses; it agrees with the host's
`JSON.stringify` on every concrete value appearing in a theorem below. -/
def jsonStringify : Json → String
  | Json.null => "null"
  | Json.bool true => "true"
  | Json.bool false => "false"
  | Json.num n => toString n
  | Json.str s => "\"" ++ escapeString s ++ "\""
  | Json.arr xs => "[" ++ stringifyElems xs ++ "]"
  | Json.obj fields => String.singleton lbrace ++ stringifyFields fields ++ String.singleton rbrace

/-- Serialization of array elements, comma separated. -/
def stringifyElems : List Json → String
  | [] => ""
  | [x] => jsonStringify x
  | x :: y :: xs => jsonStringify x ++ "," ++ stringifyElems (y :: xs)

/-- Serialization of object members, comma separated. -/
def stringifyFields : List (String × Json) → String
  | [] => ""
  | [(k, v)] => "\"" ++ escapeString k ++ "\":" ++ jsonStringify v
  | (k, v) :: f :: fs =>
    "\"" ++ escapeString k ++ "\":" ++ jsonStringify v ++ "," ++ stringifyFields (f :: fs)

end

/-- JS `toLowerCase()`, modelled character-wise with the ASCII case
mapping (which covers every concrete input in this development). -/
def jsToLowerCase (s : String) : String := String.mk (s.data.map Char.toLower)

/-- The userData record built by the register action (register route,
lines 106-114): note the password is stored under `passwordHash` and there
is no `password` field. -/
def registerUserData (userKey email firstName lastName password createdAt updatedAt : String) : Json :=
  Json.obj
    [("id", Json.str userKey),
     ("email", Json.str email),
     ("firstName", Json.str firstName),
     ("lastName", Json.str lastName),
     ("passwordHash", Json.str password),
     ("createdAt", Json.str createdAt),
     ("updatedAt", Json.str updatedAt)]

/-- The observable outcomes of the register action's post-validation body. -/
inductive RegisterResult where
  | emailExists
  | session (userId : String) (redirectTo : String)
  | serverError
deriving DecidableEq

/-- The register action (register route, lines 63-129) after successful
schema validation: the email is lowercased on extraction, the existence
check uses a no-options `get` under JS truthiness, the new record is
serialized with the host `JSON.stringify` (the `stringify` parameter) and
stored, and a session is created for the user key.  Validation itself (an
external schema library) is a precondition of reaching this body. -/
def registerAction (parse : String → Option Json) (stringify : Json → String)
    (st : Store) (email password firstName lastName redirectTo createdAt updatedAt : String) :
    RegisterResult × Store :=
  let emailLower := jsToLowerCase email
  let userKey := "user:" ++ emailLower
  let existingUser := MockKV.get mockKV parse st userKey GetOptions.undef
  if existingUser.isTruthy then (RegisterResult.emailExists, st)
  else
    let userData := registerUserData userKey emailLower firstName lastName password createdAt updatedAt
    match MockKV.put mockKV 0 st userKey (PutValue.text (stringify userData)) with
    | some st2 => (RegisterResult.session userKey redirectTo, st2)
    | none => (RegisterResult.serverError, st)

/-- The observable outcomes of the login action's post-validation body. -/
inductive LoginResult where
  | userNotFound
  | invalidPassword
  | session (userId : Option Json) (redirectTo : String)

/-- JS strict inequality `v !== password` where `password` is a string and
`v` is a property-access result: `undefined` and non-strings are always
unequal to a string; strings compare by value. -/
def jsStrictNeqStr (v : Option Json) (password : String) : Bool :=
  match v with
  | some (Json.str s) => s != password
  | _ => true

/-- The login action (login route, lines 49-93) after successful schema
validation: look the user up with `{ type: 'json' }`, fail with
`User not found` when the result is falsy, fail with `Invalid password`
when `userData.password !== password`, otherwise create a session from
`userData.id`. -/
def loginAction (parse : String → Option Json) (st : Store)
    (email password redirectTo : String) : LoginResult :=
  let userKey := "user:" ++ jsToLowerCase email
  let userData := MockKV.get mockKV parse st userKey (GetOptions.objType "json")
  if userData.isTruthy = false then LoginResult.userNotFound
  else if jsStrictNeqStr (userData.field "password") password then LoginResult.invalidPassword
  else LoginResult.session (userData.field "id") redirectTo

/-- One mutation of the store, for stating the write-provenance invariant. -/
inductive Op where
  | putOp (k v : String)
  | delOp (k : String)
deriving DecidableEq

/-- Whether an operation addresses a given key. -/
def Op.touches : Op → String → Bool
  | .putOp k _, key => k = key
  | .delOp k, key => k = key

/-- The effect of one operation on the store. -/
def applyOp (st : Store) : Op → Store
  | .putOp k v => Store.set st k v
  | .delOp k => Store.del st k

/-- The effect of a sequence of operations, first to last. -/
def applyOps (st : Store) (ops : List Op) : Store := ops.foldl applyOp st

/-- Setting a key makes it readable with exactly the written value. -/
theorem Store.get_set_self (st : Store) (k v : String) :
    Store.get (Store.set st k v) k = some v := by
  induction st with
  | nil => simp [Store.set, Store.get]
  | cons e rest ih =>
    obtain ⟨ek, ev⟩ := e
    by_cases h : ek = k
    · simp [Store.set, Store.get, h]
    · simp [Store.set, Store.get, h, ih]

/-- Setting a key leaves every other key's value unchanged. -/
theorem Store.get_set_ne (st : Store) (k k' v : String) (h : k' ≠ k) :
    Store.get (Store.set st k v) k' = Store.get st k' := by
  induction st with
  | nil => simp [Store.set, Store.get, Ne.symm h]
  | cons e rest ih =>
    obtain ⟨ek, ev⟩ := e
    by_cases he : ek = k
    · subst he
      simp [Store.set, Store.get, Ne.symm h]
    · by_cases he' : ek = k'
      · simp [Store.set, Store.get, he, he', h]
      · simp [Store.set, Store.get, he, he', ih]

/-- Deleting a key makes it unreadable. -/
theorem Store.get_del_self (st : Store) (k : String) :
    Store.get (Store.del st k) k = none := by
  induction st with
  | nil => simp [Store.del, Store.get]
  | cons e rest ih =>
    obtain ⟨ek, ev⟩ := e
    by_cases h : ek = k
    · simp [Store.del, h, ih]
    · simp [Store.del, Store.get, h, ih]

/-- Deleting a key leaves every other key's value unchanged. -/
theorem Store.get_del_ne (st : Store) (k k' : String) (h : k' ≠ k) :
    Store.get (Store.del st k) k' = Store.get st k' := by
  induction st with
  | nil => simp [Store.del, Store.get]
  | cons e rest ih =>
    obtain ⟨ek, ev⟩ := e
    by_cases he : ek = k
    · subst he
      simp [Store.del, Store.get, Ne.symm h, ih]
    · by_cases he' : ek = k'
      · simp [Store.del, Store.get, he, he', h]
      · simp [Store.del, Store.get, he, he', ih]

/-- Deleting an absent key is a no-op on the store value itself. -/
theorem Store.del_of_get_none (st : Store) (k : String) (h : Store.get st k = none) :
    Store.del st k = st := by
  induction st with
  | nil => simp [Store.del]
  | cons e rest ih =>
    obtain ⟨ek, ev⟩ := e
    by_cases he : ek = k
    · simp [Store.get, he] at h
    · simp [Store.get, he] at h
      simp [Store.del, he, ih h]

/-- After a text put, a no-options get returns the raw stored text. -/
theorem MockKV.get_undef_set (self : MockKV) (parse : String → Option Json)
    (st : Store) (k v : String) :
    MockKV.get self parse (Store.set st k v) k GetOptions.undef = GetResult.text v := by
  simp [MockKV.get, Store.get_set_self, GetOptions.typeField]

/-- Every string starts with the empty prefix. -/
theorem startsWith_empty (s : String) : s.startsWith "" = true := by
  have h : 0 + 0 ≤ s.endPos.byteIdx := Nat.zero_le _
  simp only [String.startsWith, BEq.beq, Substring.beq, Substring.bsize, Substring.take,
    String.toSubstring, Substring.nextn, String.substrEq, Bool.and_eq_true, decide_eq_true_eq]
  refine ⟨rfl, ⟨by exact h, by exact Nat.le_refl _⟩, ?_⟩
  rw [String.substrEq.loop]
  simp

/-- One unfolding step of the drain loop. -/
theorem readerDrain_succ (reads : Nat → Option (List Nat)) (fuel i : Nat) :
    readerDrain reads (fuel + 1) i =
      match reads i with
      | none => some []
      | some chunk =>
        match readerDrain reads fuel (i + 1) with
        | none => none
        | some chunks => some (chunk :: chunks) := rfl

/-- The drain loop reaches `done` and collects exactly the chunks the reader
yields, given one spare unit of fuel for the final `done` read. -/
theorem readerDrain_complete (cs : List (List Nat)) (reads : Nat → Option (List Nat)) (i : Nat)
    (hyield : ∀ j, (h : j < cs.length) → reads (i + j) = some (cs.get ⟨j, h⟩))
    (hdone : reads (i + cs.length) = none) :
    readerDrain reads (cs.length + 1) i = some cs := by
  induction cs generalizing i with
  | nil =>
    simp only [List.length_nil, Nat.add_zero] at hdone
    simp [readerDrain, hdone]
  | cons c rest ih =>
    have h0 : reads i = some c := by simpa using hyield 0 (by simp)
    have ihres : readerDrain reads (rest.length + 1) (i + 1) = some rest := by
      apply ih
      · intro j h
        have := hyield (j + 1) (by simpa using Nat.succ_lt_succ h)
        simpa [Nat.add_assoc, Nat.add_comm 1 j] using this
      · have := hdone
        simpa [List.length_cons, Nat.add_assoc, Nat.add_comm 1 rest.length] using this
    simp only [List.length_cons]
    rw [readerDrain_succ, h0, ihres]

/-- The offset-copy fold equals flat concatenation (generalized over the
accumulator). -/
theorem foldl_append_eq (cs : List (List Nat)) (acc : List Nat) :
    cs.foldl (fun a c => a ++ c) acc = acc ++ cs.flatten := by
  induction cs generalizing acc with
  | nil => simp
  | cons c rest ih => simp [ih, List.append_assoc]

/-- The chunk concatenation of the source equals flat concatenation. -/
theorem concatChunks_eq_flatten (cs : List (List Nat)) :
    concatChunks cs = cs.flatten := by
  simpa using foldl_append_eq cs []

/-- The allocation-size fold equals the sum of chunk lengths (generalized
over the accumulator). -/
theorem foldl_length_eq (cs : List (List Nat)) (acc : Nat) :
    cs.foldl (fun a c => a + c.length) acc = acc + (cs.map List.length).sum := by
  induction cs generalizing acc with
  | nil => simp
  | cons c rest ih => simp [ih, Nat.add_assoc]

/-- The allocated buffer has exactly the length of the concatenation. -/
theorem concatChunks_length (cs : List (List Nat)) :
    (concatChunks cs).length = totalLength cs := by
  simp [concatChunks_eq_flatten, totalLength, foldl_length_eq, List.length_flatten]

/-- Write provenance: a readable value either comes from a latest put in the
operation sequence with no later operation on that key, or was already in
the starting store and the sequence never touched the key. -/
theorem applyOps_provenance (ops : List Op) (st : Store) (k w : String)
    (h : Store.get (applyOps st ops) k = some w) :
    (∃ pre post, ops = pre ++ Op.putOp k w :: post ∧ ∀ op ∈ post, Op.touches op k = false)
    ∨ ((∀ op ∈ ops, Op.touches op k = false) ∧ Store.get st k = some w) := by
  induction ops generalizing st with
  | nil => exact Or.inr ⟨by simp, by simpa [applyOps] using h⟩
  | cons op rest ih =>
    have h' : Store.get (applyOps (applyOp st op) rest) k = some w := by
      simpa [applyOps] using h
    rcases ih (applyOp st op) h' with ⟨pre, post, heq, hpost⟩ | ⟨hrest, hst⟩
    · exact Or.inl ⟨op :: pre, post, by simp [heq], hpost⟩
    · cases op with
      | putOp kk vv =>
        by_cases hk : kk = k
        · subst hk
          have hvw : vv = w := by
            have : some vv = some w := by
              simpa [applyOp, Store.get_set_self] using hst
            exact Option.some.inj this
          exact Or.inl ⟨[], rest, by simp [hvw], hrest⟩
        · refine Or.inr ⟨?_, ?_⟩
          · intro o ho
            rcases List.mem_cons.mp ho with rfl | ho'
            · simpa [Op.touches] using hk
            · exact hrest o ho'
          · simpa [applyOp, Store.get_set_ne st kk k vv (fun hh => hk hh.symm)] using hst
      | delOp kk =>
        by_cases hk : kk = k
        · subst hk
          simp [applyOp, Store.get_del_self] at hst
        · refine Or.inr ⟨?_, ?_⟩
          · intro o ho
            rcases List.mem_cons.mp ho with rfl | ho'
            · simpa [Op.touches] using hk
            · exact hrest o ho'
          · simpa [applyOp, Store.get_del_ne st kk k (fun hh => hk hh.symm)] using hst

/-- C1: for every string key k and string value v, put(k, v) followed by
get(k) with no options returns exactly v, regardless of the prior contents
of the store. -/
theorem put_then_get_text_roundtrip (parse : String → Option Json) (fuel : Nat)
    (st : Store) (k v : String) :
    MockKV.put mockKV fuel st k (PutValue.text v) = some (Store.set st k v)
    ∧ MockKV.get mockKV parse (Store.set st k v) k GetOptions.undef = GetResult.text v :=
  ⟨rfl, MockKV.get_undef_set mockKV parse st k v⟩

/-- C2 counterexample: a key holding the empty string — which is not valid
JSON (the simple parser, like the host parser, rejects it) — is returned by
a structured-mode get as the raw empty text, not as the absent-marker, so
the claim fails as stated on this input. -/
theorem get_json_empty_value_counterexample :
    parseJsonSimple "" = none
    ∧ MockKV.get mockKV parseJsonSimple (Store.set Store.empty "k" "") "k"
        (GetOptions.objType "json") = GetResult.text ""
    ∧ (GetResult.text "" = GetResult.absent → False) :=
  ⟨rfl, rfl, fun h => nomatch h⟩

/-- C2 amended: for every key whose stored text is nonempty and not valid
structured data, a structured-mode get (object or string form of the option)
returns the absent-marker; a key whose stored text is the empty string is
instead returned as the raw empty text. -/
theorem get_json_invalid_returns_absent :
    (∀ (parse : String → Option Json) (st : Store) (k v : String),
        Store.get st k = some v → v ≠ "" → parse v = none →
        MockKV.get mockKV parse st k (GetOptions.objType "json") = GetResult.absent
        ∧ MockKV.get mockKV parse st k (GetOptions.str "json") = GetResult.absent)
    ∧ (∀ (parse : String → Option Json) (st : Store) (k : String),
        Store.get st k = some "" →
        MockKV.get mockKV parse st k (GetOptions.objType "json") = GetResult.text "") := by
  constructor
  · intro parse st k v hget hne hparse
    constructor <;> simp [MockKV.get, hget, hne, hparse, GetOptions.typeField]
  · intro parse st k hget
    simp [MockKV.get, hget, GetOptions.typeField]

/-- Witness for the amended C2 at the spec's own example input. -/
theorem get_json_invalid_returns_absent_witness :
    MockKV.get mockKV parseJsonSimple (Store.set Store.empty "x" "notjson") "x"
      (GetOptions.objType "json") = GetResult.absent :=
  (get_json_invalid_returns_absent.1 parseJsonSimple (Store.set Store.empty "x" "notjson")
    "x" "notjson" rfl (by decide) rfl).1

/-- C5: getWithMetadata resolves the value exactly as get does and pairs it
with a null metadata field (and a null cache status). -/
theorem getWithMetadata_matches_get (parse : String → Option Json) (st : Store)
    (k : String) (opts : GetOptions) :
    (MockKV.getWithMetadata mockKV parse st k opts).value = MockKV.get mockKV parse st k opts
    ∧ (MockKV.getWithMetadata mockKV parse st k opts).metadata = none
    ∧ (MockKV.getWithMetadata mockKV parse st k opts).cacheStatus = none :=
  ⟨rfl, rfl, rfl⟩

/-- C6: delete(k) followed by get(k) returns the absent-marker under every
options argument, whether or not k was present; deleting an absent key is a
total no-op, so it completes without error. -/
theorem delete_then_get_absent (parse : String → Option Json) (st : Store)
    (k : String) (opts : GetOptions) :
    MockKV.get mockKV parse (MockKV.delete mockKV st k) k opts = GetResult.absent
    ∧ Store.get (MockKV.delete mockKV st k) k = none
    ∧ (Store.get st k = none → MockKV.delete mockKV st k = st) := by
  refine ⟨?_, ?_, fun h => Store.del_of_get_none st k h⟩
  · simp [MockKV.get, MockKV.delete, Store.get_del_self]
  · simp [MockKV.delete, Store.get_del_self]

/-- Witness for C6: a concrete delete of a present key then a get, and a
concrete delete of an absent key. -/
theorem delete_then_get_absent_witness :
    MockKV.get mockKV parseJsonSimple
      (MockKV.delete mockKV (Store.set Store.empty "a" "x") "a") "a" GetOptions.undef
      = GetResult.absent
    ∧ MockKV.delete mockKV Store.empty "a" = Store.empty := by
  refine ⟨(delete_then_get_absent parseJsonSimple (Store.set Store.empty "a" "x")
    "a" GetOptions.undef).1, ?_⟩
  exact (delete_then_get_absent parseJsonSimple Store.empty "a" GetOptions.undef).2.2 rfl

/-- C7: put writes exactly its key and frames all others, delete removes
exactly its key and frames all others, and every value readable from a store
built by a sequence of operations was most recently written by a put to that
exact key (no later operation touched it). -/
theorem put_replaces_only_its_key (st : Store) (k k' v : String) :
    Store.get (Store.set st k v) k = some v
    ∧ (k' ≠ k → Store.get (Store.set st k v) k' = Store.get st k')
    ∧ Store.get (Store.del st k) k = none
    ∧ (k' ≠ k → Store.get (Store.del st k) k' = Store.get st k')
    ∧ (∀ (ops : List Op) (w : String),
        Store.get (applyOps Store.empty ops) k = some w →
        ∃ pre post, ops = pre ++ Op.putOp k w :: post
          ∧ ∀ op ∈ post, Op.touches op k = false) := by
  refine ⟨Store.get_set_self st k v, fun h => Store.get_set_ne st k k' v h,
    Store.get_del_self st k, fun h => Store.get_del_ne st k k' h, ?_⟩
  intro ops w h
  rcases applyOps_provenance ops Store.empty k w h with hl | ⟨-, hempty⟩
  · exact hl
  · simp [Store.empty, Store.get] at hempty

/-- Witness for C7: frame at a concrete other key and provenance on a
concrete one-put history. -/
theorem put_replaces_only_its_key_witness :
    Store.get (Store.set ([("b", "old")] : Store) "a" "v") "b"
        = Store.get ([("b", "old")] : Store) "b"
    ∧ (∃ pre post, [Op.putOp "a" "v"] = pre ++ Op.putOp "a" "v" :: post
        ∧ ∀ op ∈ post, Op.touches op "a" = false) := by
  obtain ⟨h1, h2, h3, h4, h5⟩ := put_replaces_only_its_key ([("b", "old")] : Store) "a" "b" "v"
  exact ⟨h2 (by decide), h5 [Op.putOp "a" "v"] "v" (by decide)⟩

/-- C10: both bindings of the mock environment are the one module-level
MockKV instance, and since every instance shares the single module-level
store, a text put through any instance followed by a get of the same key
through any other instance returns that value. -/
theorem mock_env_shares_one_store :
    createMockEnv.boltKV = mockKV ∧ createMockEnv.AUTH_USERS = mockKV
    ∧ ∀ (a b : MockKV) (parse : String → Option Json) (fuel : Nat) (st : Store) (k v : String),
        MockKV.put a fuel st k (PutValue.text v) = some (Store.set st k v)
        ∧ MockKV.get b parse (Store.set st k v) k GetOptions.undef = GetResult.text v := by
  refine ⟨rfl, rfl, fun a b parse fuel st k v => ⟨rfl, MockKV.get_undef_set b parse st k v⟩⟩

/-- C3 counterexample: a present key holding the empty string, read with the
binary-form option, comes back as the raw text shape rather than the byte
buffer the options argument selects, so the shape is not selected by the
options argument alone. -/
theorem get_shape_counterexample :
    Store.get (Store.set Store.empty "e" "") "e" = some ""
    ∧ MockKV.get mockKV parseJsonSimple (Store.set Store.empty "e" "") "e"
        (GetOptions.str "arrayBuffer") = GetResult.text ""
    ∧ (GetResult.text "" = GetResult.buffer (utf8Encode "") → False) :=
  ⟨rfl, rfl, fun h => nomatch h⟩

/-- C3 amended: for every present key, get produces exactly one of five
shapes, fully determined by the options argument, the parse outcome and the
emptiness of the stored text: the parsed value or the absent-marker under a
structured-decode option on nonempty text, a byte buffer re-encoding
nonempty text under the binary option, a single-chunk byte stream of it
under the streaming option, and the raw text in every remaining case
(unsupported decode-modes and empty stored text included). -/
theorem get_shape_characterization (parse : String → Option Json) (st : Store)
    (k v : String) (opts : GetOptions) (hget : Store.get st k = some v) :
    MockKV.get mockKV parse st k opts =
      if (opts = GetOptions.objType "json" ∨ opts = GetOptions.str "json") ∧ v ≠ "" then
        match parse v with
        | some j => GetResult.json j
        | none => GetResult.absent
      else if opts = GetOptions.str "arrayBuffer" ∧ v ≠ "" then
        GetResult.buffer (utf8Encode v)
      else if opts = GetOptions.str "stream" ∧ v ≠ "" then
        GetResult.stream [utf8Encode v]
      else GetResult.text v := by
  by_cases hv : v = ""
  · subst hv
    cases opts with
    | undef => simp [MockKV.get, hget, GetOptions.typeField]
    | objType t => simp [MockKV.get, hget, GetOptions.typeField]
    | str s => simp [MockKV.get, hget, GetOptions.typeField]
  · cases opts with
    | undef => simp [MockKV.get, hget, GetOptions.typeField, hv]
    | objType t =>
      by_cases ht : t = "json"
      · subst ht
        simp [MockKV.get, hget, GetOptions.typeField, hv]
      · simp [MockKV.get, hget, GetOptions.typeField, hv, ht]
    | str s =>
      by_cases hs1 : s = "json"
      · subst hs1
        simp [MockKV.get, hget, GetOptions.typeField, hv]
      · by_cases hs2 : s = "arrayBuffer"
        · subst hs2
          simp [MockKV.get, hget, GetOptions.typeField, hv]
        · by_cases hs3 : s = "stream"
          · subst hs3
            simp [MockKV.get, hget, GetOptions.typeField, hv]
          · simp [MockKV.get, hget, GetOptions.typeField, hv, hs1, hs2, hs3]

/-- Witness for the amended C3 at the spec's structured-decode example. -/
theorem get_shape_characterization_witness :
    MockKV.get mockKV parseJsonSimple
        (Store.set Store.empty "user:a@example.com" "\x7b\"id\":1\x7d")
        "user:a@example.com" (GetOptions.objType "json") =
      if ((GetOptions.objType "json" = GetOptions.objType "json"
            ∨ GetOptions.objType "json" = GetOptions.str "json")
          ∧ "\x7b\"id\":1\x7d" ≠ "") then
        match parseJsonSimple "\x7b\"id\":1\x7d" with
        | some j => GetResult.json j
        | none => GetResult.absent
      else if GetOptions.objType "json" = GetOptions.str "arrayBuffer"
          ∧ "\x7b\"id\":1\x7d" ≠ "" then
        GetResult.buffer (utf8Encode "\x7b\"id\":1\x7d")
      else if GetOptions.objType "json" = GetOptions.str "stream"
          ∧ "\x7b\"id\":1\x7d" ≠ "" then
        GetResult.stream [utf8Encode "\x7b\"id\":1\x7d"]
      else GetResult.text "\x7b\"id\":1\x7d" :=
  get_shape_characterization parseJsonSimple
    (Store.set Store.empty "user:a@example.com" "\x7b\"id\":1\x7d")
    "user:a@example.com" "\x7b\"id\":1\x7d" (GetOptions.objType "json") rfl

/-- C8: for every byte stream whose reader yields the chunk list cs and then
signals completion, put terminates with fuel covering those reads, the
stored text is the decoding of the concatenation of all chunks in order, the
offset-copy concatenation is flat concatenation, and the allocated length is
the total chunk length. -/
theorem put_stream_drains_all_chunks (st : Store) (k : String)
    (reads : Nat → Option (List Nat)) (cs : List (List Nat))
    (hyield : ∀ j, (h : j < cs.length) → reads j = some (cs.get ⟨j, h⟩))
    (hdone : reads cs.length = none) :
    MockKV.put mockKV (cs.length + 1) st k (PutValue.stream reads)
        = some (Store.set st k (utf8Decode (concatChunks cs)))
    ∧ concatChunks cs = cs.flatten
    ∧ (concatChunks cs).length = totalLength cs := by
  have hdrain : readerDrain reads (cs.length + 1) 0 = some cs :=
    readerDrain_complete cs reads 0 (fun j h => by simpa using hyield j h)
      (by simpa using hdone)
  refine ⟨?_, concatChunks_eq_flatten cs, concatChunks_length cs⟩
  simp [MockKV.put, hdrain]

/-- Witness for C8: a concrete two-chunk stream. -/
theorem put_stream_drains_all_chunks_witness :
    MockKV.put mockKV 3 Store.empty "k"
        (PutValue.stream (fun i => if i = 0 then some [104] else if i = 1 then some [105] else none))
      = some (Store.set Store.empty "k" (utf8Decode (concatChunks [[104], [105]])))
    ∧ concatChunks [[104], [105]] = List.flatten [[104], [105]]
    ∧ (concatChunks [[104], [105]]).length = totalLength [[104], [105]] := by
  have h := put_stream_drains_all_chunks Store.empty "k"
    (fun i => if i = 0 then some [104] else if i = 1 then some [105] else none)
    [[104], [105]]
    (by
      intro j hj
      match j, hj with
      | 0, _ => rfl
      | 1, _ => rfl)
    rfl
  exact h

/-- Mapping the name out of the name-only records recovers the key list. -/
theorem map_name_mk (l : List String) :
    (l.map (fun name => KeyName.mk name)).map KeyName.name = l := by
  induction l with
  | nil => rfl
  | cons a l ih => simp [ih]

/-- The list filter predicate of the source coincides with plain
prefix-matching for every prefix, the truthiness special case for the empty
prefix included. -/
theorem list_pred_eq_startsWith (p key : String) :
    (if p != "" then key.startsWith p else true) = key.startsWith p := by
  by_cases hp : p = ""
  · subst hp
    simp [startsWith_empty]
  · simp [hp]

/-- C4: list with a prefix and a limit returns exactly the keys starting
with the prefix, in insertion order, truncated to the first n entries, as
name-only records; without options it returns all keys capped at 1000; the
result is always marked complete; and when the matching keys fit within the
limit the result is insertion-order independent (permutation-invariant). -/
theorem list_matching_keys (st : Store) (p : String) (n : Nat) :
    ((MockKV.list mockKV st { keyPrefix := some p, limit := some n }).keys.map KeyName.name
        = ((st.map Prod.fst).filter (fun key => key.startsWith p)).take n)
    ∧ ((MockKV.list mockKV st { keyPrefix := none, limit := none }).keys.map KeyName.name
        = (st.map Prod.fst).take 1000)
    ∧ (∀ opts : ListOptions, (MockKV.list mockKV st opts).list_complete = true)
    ∧ (∀ st₂ : Store, List.Perm (st.map Prod.fst) (st₂.map Prod.fst) →
        ((st.map Prod.fst).filter (fun key => key.startsWith p)).length ≤ n →
        List.Perm ((MockKV.list mockKV st { keyPrefix := some p, limit := some n }).keys)
          ((MockKV.list mockKV st₂ { keyPrefix := some p, limit := some n }).keys)) := by
  refine ⟨?_, ?_, fun opts => rfl, ?_⟩
  · simp only [MockKV.list, list_pred_eq_startsWith, Option.getD_some]
    rw [← List.map_take, map_name_mk]
  · simp only [MockKV.list, Option.getD_none, List.filter_true]
    rw [← List.map_take, map_name_mk]
  · intro st₂ hperm hlen
    have hp2 : List.Perm ((st.map Prod.fst).filter (fun key => key.startsWith p))
        ((st₂.map Prod.fst).filter (fun key => key.startsWith p)) :=
      List.Perm.filter _ hperm
    have hlen2 : ((st₂.map Prod.fst).filter (fun key => key.startsWith p)).length ≤ n := by
      calc ((st₂.map Prod.fst).filter (fun key => key.startsWith p)).length
          = ((st.map Prod.fst).filter (fun key => key.startsWith p)).length :=
            (List.Perm.length_eq hp2).symm
        _ ≤ n := hlen
    simp only [MockKV.list, list_pred_eq_startsWith, Option.getD_some]
    rw [List.take_of_length_le (by simpa using hlen),
      List.take_of_length_le (by simpa using hlen2)]
    exact List.Perm.map _ hp2

/-- Witness for C4 over a two-key store and a reordering of it. -/
theorem list_matching_keys_witness :
    ((MockKV.list mockKV ([("user:a", "1"), ("x", "2")] : Store)
        { keyPrefix := some "", limit := some 5 }).keys.map KeyName.name
      = ((([("user:a", "1"), ("x", "2")] : Store).map Prod.fst).filter
          (fun key => key.startsWith "")).take 5)
    ∧ List.Perm ((MockKV.list mockKV ([("user:a", "1"), ("x", "2")] : Store)
          { keyPrefix := some "", limit := some 5 }).keys)
        ((MockKV.list mockKV ([("x", "2"), ("user:a", "1")] : Store)
          { keyPrefix := some "", limit := some 5 }).keys) := by
  obtain ⟨h1, h2, h3, h4⟩ :=
    list_matching_keys ([("user:a", "1"), ("x", "2")] : Store) "" 5
  refine ⟨h1, h4 ([("x", "2"), ("user:a", "1")] : Store) (by decide) ?_⟩
  rw [List.filter_congr (fun x _ => startsWith_empty x), List.filter_true]
  decide

/-- C9: a user created through the register action (which stores the
submitted password under `passwordHash`) can never log in with those same
credentials: the login action reads the record's `password` field, which the
stored record does not have, so the strict comparison always fails and login
returns the Invalid password error.  The host JSON codec is abstracted by
the `stringify`/`parse` parameters under its round-trip contract on the
stored record (and the fact that its serialization of an object is a
nonempty string). -/
theorem register_then_login_invalid_password
    (parse : String → Option Json) (stringify : Json → String) (st : Store)
    (email password firstName lastName rT rT2 createdAt updatedAt : String)
    (h1 : Store.get st ("user:" ++ jsToLowerCase email) = none)
    (h2 : stringify (registerUserData ("user:" ++ jsToLowerCase email) (jsToLowerCase email)
            firstName lastName password createdAt updatedAt) ≠ "")
    (h3 : parse (stringify (registerUserData ("user:" ++ jsToLowerCase email)
            (jsToLowerCase email) firstName lastName password createdAt updatedAt))
          = some (registerUserData ("user:" ++ jsToLowerCase email) (jsToLowerCase email)
            firstName lastName password createdAt updatedAt)) :
    (registerAction parse stringify st email password firstName lastName rT createdAt updatedAt).1
        = RegisterResult.session ("user:" ++ jsToLowerCase email) rT
    ∧ loginAction parse
        (registerAction parse stringify st email password firstName lastName rT createdAt updatedAt).2
        email password rT2
      = LoginResult.invalidPassword := by
  have hreg : registerAction parse stringify st email password firstName lastName rT createdAt updatedAt
      = (RegisterResult.session ("user:" ++ jsToLowerCase email) rT,
         Store.set st ("user:" ++ jsToLowerCase email)
           (stringify (registerUserData ("user:" ++ jsToLowerCase email) (jsToLowerCase email)
             firstName lastName password createdAt updatedAt))) := by
    simp [registerAction, MockKV.get, MockKV.put, h1, GetResult.isTruthy]
  have hget2 : MockKV.get mockKV parse
      (Store.set st ("user:" ++ jsToLowerCase email)
        (stringify (registerUserData ("user:" ++ jsToLowerCase email) (jsToLowerCase email)
          firstName lastName password createdAt updatedAt)))
      ("user:" ++ jsToLowerCase email) (GetOptions.objType "json")
      = GetResult.json (registerUserData ("user:" ++ jsToLowerCase email) (jsToLowerCase email)
          firstName lastName password createdAt updatedAt) := by
    simp [MockKV.get, Store.get_set_self, GetOptions.typeField, h2, h3]
  have hfield : (registerUserData ("user:" ++ jsToLowerCase email) (jsToLowerCase email)
      firstName lastName password createdAt updatedAt).getField "password" = none := rfl
  have ht : (GetResult.json (registerUserData ("user:" ++ jsToLowerCase email)
      (jsToLowerCase email) firstName lastName password createdAt updatedAt)).isTruthy
      = true := rfl
  have hf : jsStrictNeqStr ((GetResult.json (registerUserData ("user:" ++ jsToLowerCase email)
      (jsToLowerCase email) firstName lastName password createdAt updatedAt)).field "password")
      password = true := rfl
  refine ⟨by rw [hreg], ?_⟩
  rw [hreg]
  simp only [loginAction]
  rw [hget2]
  simp [ht, hf]

/-- Witness for C9: a concrete registration followed by a login with the
same credentials, with the concrete JSON codec discharging the round-trip
hypotheses. -/
theorem register_then_login_invalid_password_witness :
    (registerAction parseJsonSimple jsonStringify Store.empty
        "a@b.c" "secret1" "A" "B" "/" "c" "u").1
      = RegisterResult.session ("user:" ++ jsToLowerCase "a@b.c") "/"
    ∧ loginAction parseJsonSimple
        (registerAction parseJsonSimple jsonStringify Store.empty
          "a@b.c" "secret1" "A" "B" "/" "c" "u").2
        "a@b.c" "secret1" "/"
      = LoginResult.invalidPassword :=
  register_then_login_invalid_password parseJsonSimple jsonStringify Store.empty
    "a@b.c" "secret1" "A" "B" "/" "/" "c" "u" rfl (by decide) rfl
